import Mathlib

/-!
Verification development for the customer-website bulk updater
(`scripts/update-websites.js`, the enhanced three-tier script, and the
TypeScript variant `src/websites.ts`).

JavaScript strings are embedded as `List Char` (with `String` wrappers at the
statement boundary).  Network effects are embedded by passing the value each
network call would produce (`Except`/`Option` parameters) and recording the
calls a run performs as explicit traces.
-/

/-! ## Character and string primitives (models of the JS string operations) -/

/-- ASCII lowercasing of one character, the effect of
`String.prototype.toLowerCase` on ASCII data (non-ASCII characters are
left unchanged by this model). -/
def asciiToLower (c : Char) : Char :=
  if 65 ≤ c.toNat ∧ c.toNat ≤ 90 then Char.ofNat (c.toNat + 32) else c

/-- Lowercase a character list. -/
def lowerL (cs : List Char) : List Char := cs.map asciiToLower

/-- JS `\s` on ASCII data: space, tab, LF, CR, vertical tab, form feed. -/
def isWsChar (c : Char) : Bool :=
  c = ' ' ∨ c = '\t' ∨ c = '\n' ∨ c = '\r' ∨ c = '\x0b' ∨ c = '\x0c'

/-- `String.prototype.trim` on a character list. -/
def jsTrimL (cs : List Char) : List Char :=
  ((cs.dropWhile isWsChar).reverse.dropWhile isWsChar).reverse

/-- `String.prototype.startsWith` (case sensitive). -/
def startsWithL : List Char → List Char → Bool
  | _, [] => true
  | [], _ :: _ => false
  | c :: cs, p :: ps => c = p && startsWithL cs ps

/-- Case-insensitive prefix test (a `/^.../i` regex anchor). -/
def startsWithCI (hay pre : List Char) : Bool :=
  startsWithL (lowerL hay) (lowerL pre)

/-- `String.prototype.includes`: substring containment. -/
def containsL : List Char → List Char → Bool
  | [], needle => needle.isEmpty
  | c :: cs, needle => startsWithL (c :: cs) needle || containsL cs needle

/-- String wrappers used in theorem statements. -/
def jsTrim (s : String) : String := String.mk (jsTrimL s.data)

def jsToLower (s : String) : String := String.mk (lowerL s.data)

def jsIncludes (s sub : String) : Bool := containsL s.data sub.data

/-! ## Model of the platform URL parser

`normalizeDomain` and the search tier call the WHATWG `new URL(u)` parser and
read `u.hostname`.  `urlHostnameL` models that platform behaviour for the
`http`/`https` special schemes: scheme parsing, slash skipping, authority
extraction (userinfo, port), forbidden-host-code-point validation and ASCII
lowercasing.  Simplifications kept deliberately: non-`http(s)` schemes,
percent-escapes in hosts, IDNA/punycode and the IPv4/IPv6 host forms are
treated as parse failures; hosts are restricted to printable ASCII. -/

/-- Scheme characters after the first: ALPHA / DIGIT / `+` / `-` / `.`. -/
def schemeCharOk (c : Char) : Bool :=
  c.isAlpha || c.isDigit || c = '+' || c = '-' || c = '.'

def splitSchemeGo : List Char → List Char → Option (List Char × List Char)
  | _, [] => none
  | acc, c :: rest =>
    if c = ':' then some (acc.reverse, rest)
    else if schemeCharOk c then splitSchemeGo (c :: acc) rest
    else none

/-- Split `scheme ":" rest`; `none` when no well-formed scheme is present. -/
def splitScheme : List Char → Option (List Char × List Char)
  | [] => none
  | c :: rest => if c.isAlpha then splitSchemeGo [c] rest else none

/-- Valid host character: printable ASCII that is not a forbidden host code
point (and not `%`, since percent-escapes are not modelled). -/
def hostCharOk (c : Char) : Bool :=
  33 ≤ c.toNat && c.toNat ≤ 126 &&
    !(c ∈ ['#', '/', ':', '<', '>', '?', '@', '[', '\\', ']', '^', '|', '%'])

/-- Validate a host and lowercase it (domain hosts are ASCII-lowercased). -/
def validateHost (cs : List Char) : Option (List Char) :=
  if cs ≠ [] ∧ cs.all hostCharOk then some (lowerL cs) else none

/-- Drop the userinfo part: everything through the last `@`. -/
def afterLastAt (cs : List Char) : List Char :=
  (cs.reverse.takeWhile (fun c => c ≠ '@')).reverse

/-- Characters terminating the authority component of a special URL. -/
def authTerm (c : Char) : Bool :=
  c = '/' || c = '\\' || c = '?' || c = '#'

/-- Split host and port at the first `:`; the port must be all digits
(possibly empty). -/
def splitHostPort (cs : List Char) : Option (List Char) :=
  let host := cs.takeWhile (fun c => c ≠ ':')
  let rest := cs.dropWhile (fun c => c ≠ ':')
  match rest with
  | [] => some host
  | _ :: port => if port.all Char.isDigit then some host else none

/-- The hostname `new URL(s).hostname`, or `none` when the constructor
throws (see the model notes above). -/
def urlHostnameL (cs : List Char) : Option (List Char) :=
  match splitScheme cs with
  | none => none
  | some (sch, rest) =>
    if lowerL sch = "http".data ∨ lowerL sch = "https".data then
      match splitHostPort (afterLastAt
          ((rest.dropWhile (fun c => c = '/' || c = '\\')).takeWhile
            (fun c => !authTerm c))) with
      | none => none
      | some host => validateHost host
    else none

def urlHostname (s : String) : Option String :=
  (urlHostnameL s.data).map String.mk

/-! ## `normalizeDomain` (enhanced script, lines 197-210)

The `CONFIG.forceWww` flag read by the source is passed explicitly as `fw`. -/

/-- The argument handed to `new URL`: the raw string when it starts with
`"http"`, otherwise prefixed with `"https://"`. -/
def prefixedL (u : List Char) : List Char :=
  if startsWithL u "http".data then u else "https://".data ++ u

/-- The textual-strip fallback prefix removal:
`url.replace(/^(https?:\/\/)?(www\.)?/i, '')`. -/
def stripUrlPrefixL (cs : List Char) : List Char :=
  let cs1 :=
    if startsWithCI cs "https://".data then cs.drop 8
    else if startsWithCI cs "http://".data then cs.drop 7
    else cs
  if startsWithCI cs1 "www.".data then cs1.drop 4 else cs1

def normalizeDomainL (fw : Bool) (cs : List Char) : List Char :=
  if cs = [] then []
  else
    let u := jsTrimL cs
    match urlHostnameL (prefixedL u) with
    | some host =>
      if fw && !startsWithL host "www.".data then "www.".data ++ host else host
    | none =>
      let w := (stripUrlPrefixL u).takeWhile (fun c => c ≠ '/')
      if fw && !startsWithCI w "www.".data then "www.".data ++ w else w

def normalizeDomain (fw : Bool) (url : String) : String :=
  String.mk (normalizeDomainL fw url.data)

/-! ## Tier 1 helpers: `cleanCompanyName` and `generateDomainPatterns`
(enhanced script, lines 216-250) -/

/-- JS `\w` word character, for the regex `\b` boundaries. -/
def isWordChar (c : Char) : Bool :=
  c.isAlpha || c.isDigit || c = '_'

/-- The alternatives of the corporate-suffix regex, in source order
(alternation in a backtracking regex tries them left to right). -/
def suffixAlts : List (List Char) :=
  ["inc".data, "llc".data, "corp".data, "ltd".data, "limited".data,
   "incorporated".data, "corporation".data, "company".data, "co".data,
   "l.l.c.".data, "l.l.c".data]

/-- `\b` after a match: a word/non-word transition (or edge) between the last
matched character and the following text. -/
def boundaryAfter (lastC : Char) : List Char → Bool
  | [] => isWordChar lastC
  | c :: _ => isWordChar lastC != isWordChar c

/-- Try one alternative at the current position: it must be a literal prefix,
satisfy the trailing `\b`, and then the regex `\.?` greedily consumes one
dot.  Returns the word-character status of the last consumed character and
the remaining text. -/
def tryAlt (alt cs : List Char) : Option (Bool × List Char) :=
  if startsWithL cs alt then
    let rest := cs.drop alt.length
    let lastC := alt.getLast?.getD ' '
    if boundaryAfter lastC rest then
      match rest with
      | '.' :: r => some (false, r)
      | _ => some (isWordChar lastC, rest)
    else none
  else none

def tryAlts : List (List Char) → List Char → Option (Bool × List Char)
  | [], _ => none
  | alt :: alts, cs =>
    match tryAlt alt cs with
    | some r => some r
    | none => tryAlts alts cs

/-- One global pass of
`replace(/\b(inc|llc|corp|ltd|limited|incorporated|corporation|company|co|l\.l\.c\.|l\.l\.c)\b\.?/gi, '')`
over already-lowercased text.  `prevW` is the word-character status of the
character before the current position (`false` at the start of the string);
the fuel is an upper bound on the remaining length. -/
def stripSuffixesGo : Nat → Bool → List Char → List Char
  | 0, _, cs => cs
  | _ + 1, _, [] => []
  | fuel + 1, prevW, c :: rest =>
    if !prevW && isWordChar c then
      match tryAlts suffixAlts (c :: rest) with
      | some (lastW, rem) => stripSuffixesGo fuel lastW rem
      | none => c :: stripSuffixesGo fuel (isWordChar c) rest
    else c :: stripSuffixesGo fuel (isWordChar c) rest

def stripSuffixesL (cs : List Char) : List Char :=
  stripSuffixesGo cs.length false cs

/-- `replace(/^the\s+/i, '')` on lowercased text. -/
def stripTheL (cs : List Char) : List Char :=
  if startsWithL cs "the".data then
    match cs.drop 3 with
    | c :: rest => if isWsChar c then rest.dropWhile isWsChar else cs
    | [] => cs
  else cs

/-- `replace(/[^a-z0-9\s-]/g, '')`. -/
def keepNameChar (c : Char) : Bool :=
  (97 ≤ c.toNat && c.toNat ≤ 122) || c.isDigit || isWsChar c || c = '-'

def cleanCompanyNameL (cs : List Char) : List Char :=
  jsTrimL ((stripTheL (stripSuffixesL (lowerL cs))).filter keepNameChar)

def cleanCompanyName (name : String) : String :=
  String.mk (cleanCompanyNameL name.data)

/-- `replace(/\s+/g, rep)`: each maximal whitespace run becomes `rep`. -/
def collapseWsGo (rep : List Char) : Bool → List Char → List Char
  | _, [] => []
  | inWs, c :: rest =>
    if isWsChar c then
      if inWs then collapseWsGo rep true rest
      else rep ++ collapseWsGo rep true rest
    else c :: collapseWsGo rep false rest

def collapseWs (rep cs : List Char) : List Char := collapseWsGo rep false cs

/-- Order-preserving deduplication, the effect of `[...new Set(xs)]`. -/
def dedupKeepFirst : List (List Char) → List (List Char) → List (List Char)
  | _, [] => []
  | seen, x :: xs =>
    if x ∈ seen then dedupKeepFirst seen xs
    else x :: dedupKeepFirst (x :: seen) xs

/-- JS truthiness of an optional string argument (`undefined` and `''` are
falsy). -/
def truthyOpt : Option String → Bool
  | none => false
  | some s => s ≠ ""

def generateDomainPatternsL (fw : Bool) (name : List Char)
    (city : Option (List Char)) : List (List Char) :=
  let cleaned := cleanCompanyNameL name
  let noSpaces := collapseWs [] cleaned
  let hyphenated := collapseWs ['-'] cleaned
  let noNumbers := noSpaces.filter (fun c => !c.isDigit)
  let base := [noSpaces ++ ".com".data, hyphenated ++ ".com".data,
    noNumbers ++ ".com".data]
  let patterns :=
    match city with
    | some c =>
      if c ≠ [] then
        let cityClean := (lowerL c).filter (fun d => d.isAlpha || d.isDigit)
        base ++ [cityClean ++ noSpaces ++ ".com".data,
          noSpaces ++ cityClean ++ ".com".data]
      else base
    | none => base
  (dedupKeepFirst [] patterns).map
    (fun p => if fw && !startsWithL p "www.".data then "www.".data ++ p else p)

def generateDomainPatterns (fw : Bool) (name : String)
    (city : Option String) : List String :=
  (generateDomainPatternsL fw name.data (city.map String.data)).map String.mk

/-! ## Tier 2: Google CSE result scoring (enhanced script, lines 352-397) -/

/-- One search-result item of the provider response. -/
structure SearchItem where
  link : String
  title : String
  snippet : String
deriving DecidableEq, Repr

/-- A scored result, the `{ url, title, score }` object built per item. -/
structure Scored where
  url : String
  title : String
  score : Int
deriving DecidableEq, Repr

/-- The fixed blocklist `badDomains`. -/
def badDomains : List String :=
  ["facebook.com", "linkedin.com", "twitter.com", "yelp.com",
   "yellowpages.com", "bbb.org"]

/-- The score accumulation of the source: start at 0, add the bonuses, then
subtract the blocklist penalty. -/
def scoreItem (it : SearchItem) : Int :=
  let title := jsToLower it.title
  let snippet := jsToLower it.snippet
  let s0 : Int := 0
  let s1 := if jsIncludes it.link ".com" then s0 + 10 else s0
  let s2 := if jsIncludes title "official" || jsIncludes title "home" then s1 + 5 else s1
  let s3 := if jsIncludes snippet "official website" then s2 + 5 else s2
  if badDomains.any (fun bad => jsIncludes it.link bad) then s3 - 20 else s3

def mkScored (it : SearchItem) : Scored :=
  { url := it.link, title := jsToLower it.title, score := scoreItem it }

/-- Stable insertion for the descending sort
`scored.sort((a, b) => b.score - a.score)`: a JS `Array.prototype.sort` is
stable, so an element moves ahead only of strictly lower-scored ones. -/
def insertDesc (x : Scored) : List Scored → List Scored
  | [] => [x]
  | y :: ys => if y.score ≤ x.score then x :: y :: ys else y :: insertDesc x ys

def sortDesc : List Scored → List Scored
  | [] => []
  | x :: xs => insertDesc x (sortDesc xs)

/-- A resolution candidate (the objects returned by the three tiers). -/
structure Candidate where
  url : String
  confidence : String
  source : String
  allResults : Option (List String)
deriving DecidableEq, Repr

/-- The pure core of `searchGoogleCSE` applied to the parsed `json.items`
list: score, rank, reject a negative top score, and return the normalized
hostname of the top link (`null` when `new URL` throws on it). -/
def cseResolve (fw : Bool) (items : List SearchItem) : Option Candidate :=
  match sortDesc (items.map mkScored) with
  | [] => none
  | top :: rest =>
    if top.score < 0 then none
    else
      match urlHostname top.url with
      | none => none
      | some host =>
        some { url := normalizeDomain fw host,
               confidence := if 10 ≤ top.score then "high" else "medium",
               source := "google_cse",
               allResults := some ((top :: rest).map Scored.url) }

/-! ## The resolution orchestrator `findWebsite` (enhanced script,
lines 500-530)

The three tiers perform network calls; their embedding passes the value each
tier would produce when invoked, and the run records which tiers were
actually invoked. -/

inductive Tier where
  | guess
  | google
  | openai
deriving DecidableEq, Repr

/-- The three feature toggles of `CONFIG` consulted by `findWebsite`. -/
structure TierConfig where
  enableDomainGuessing : Bool
  enableGoogleSearch : Bool
  enableOpenAI : Bool
deriving DecidableEq, Repr

def findWebsiteTier3 (cfg : TierConfig) (openaiRes : Option Candidate) :
    Option Candidate × List Tier :=
  if cfg.enableOpenAI then (openaiRes, [Tier.openai]) else (none, [])

def findWebsiteTier23 (cfg : TierConfig) (googleRes openaiRes : Option Candidate) :
    Option Candidate × List Tier :=
  if cfg.enableGoogleSearch then
    match googleRes with
    | some c => (some c, [Tier.google])
    | none =>
      let r := findWebsiteTier3 cfg openaiRes
      (r.1, Tier.google :: r.2)
  else findWebsiteTier3 cfg openaiRes

/-- `findWebsite`: returns the result and the list of tiers invoked, in
invocation order. -/
def findWebsiteRun (cfg : TierConfig) (guessRes googleRes openaiRes : Option Candidate) :
    Option Candidate × List Tier :=
  if cfg.enableDomainGuessing then
    match guessRes with
    | some c => (some c, [Tier.guess])
    | none =>
      let r := findWebsiteTier23 cfg googleRes openaiRes
      (r.1, Tier.guess :: r.2)
  else findWebsiteTier23 cfg googleRes openaiRes

/-! Specification-side reading of the orchestrator contract (used to state
claim C1): the enabled tiers in the fixed order with the results they would
return, the first non-null result, and the prefix of tiers invoked. -/

/-- The tiers enabled by the configuration, in the fixed pipeline order,
paired with the result each would produce. -/
def enabledTiers (cfg : TierConfig) (guessRes googleRes openaiRes : Option Candidate) :
    List (Tier × Option Candidate) :=
  (if cfg.enableDomainGuessing then [(Tier.guess, guessRes)] else []) ++
  (if cfg.enableGoogleSearch then [(Tier.google, googleRes)] else []) ++
  (if cfg.enableOpenAI then [(Tier.openai, openaiRes)] else [])

/-- First non-null result of the enabled tiers. -/
def specFirstResult : List (Tier × Option Candidate) → Option Candidate
  | [] => none
  | (_, some c) :: _ => some c
  | (_, none) :: rest => specFirstResult rest

/-- Tiers invoked: every enabled tier up to and including the first one that
returns a result. -/
def specInvoked : List (Tier × Option Candidate) → List Tier
  | [] => []
  | (t, some _) :: _ => [t]
  | (t, none) :: rest => t :: specInvoked rest

/-! ## Directory protocol client: the persist envelope
(enhanced script `saveCustomerWebsite`, lines 170-191) -/

/-- The customer record decoded from a `getCustomer` response (missing tags
decode to empty strings). -/
structure Customer where
  id : String
  code : String
  name : String
  city : String
  state : String
  phone : String
  currentWebsite : String
deriving DecidableEq, Repr

/-- The three `<Value>` payload fields of the `saveCustomer` envelope built
by the enhanced script: a blank id becomes the literal `"0"`, a blank code
becomes the empty string, and the website value is lowercased. -/
structure SaveCustomerBody where
  idValue : String
  codeValue : String
  websiteValue : String
deriving DecidableEq, Repr

def saveCustomerWebsiteBody (customerId customerCode websiteUrl : String) :
    SaveCustomerBody :=
  { idValue := if customerId ≠ "" ∧ jsTrim customerId ≠ "" then customerId else "0",
    codeValue := if customerCode ≠ "" ∧ jsTrim customerCode ≠ "" then customerCode else "",
    websiteValue := jsToLower websiteUrl }

/-- TS variant (`src/websites.ts` lines 172-175): the CALLER substitutes the
fallbacks before invoking `saveCustomerWebsite` — blank id becomes `"0"`,
blank code falls back to the code used for the original lookup. -/
def tsPersistId (customerId : String) : String :=
  if customerId ≠ "" ∧ jsTrim customerId ≠ "" then customerId else "0"

def tsPersistCode (customerCode lookupCode : String) : String :=
  if customerCode ≠ "" ∧ jsTrim customerCode ≠ "" then customerCode else lookupCode

/-! ## `processCustomer` (enhanced script, lines 536-638)

The network and prompt effects are embedded in an environment: the value the
record fetch produces, the value `findWebsite` would return, the value the
persist call produces, and the stream of interactive prompt answers.  The
run returns the JS result object together with the trace of persist calls
(each recorded as the `(customer.id, customer.code, url)` argument triple). -/

structure ProcOpts where
  nonInteractive : Bool
  website : Option String
  force : Bool
  autoConfirm : Bool
deriving DecidableEq, Repr

structure ProcEnv where
  fetch : Except String Customer
  findResult : Option Candidate
  saveResult : Except String Bool
  answers : List String
deriving Repr

/-- The result object `processCustomer` resolves with. -/
structure ProcResult where
  success : Bool
  skipped : Bool
  updated : Bool
  url : Option String
  error : Option String
deriving DecidableEq, Repr

def skippedResult : ProcResult :=
  { success := true, skipped := true, updated := false, url := none, error := none }

def caughtResult (msg : String) : ProcResult :=
  { success := false, skipped := false, updated := false, url := none, error := some msg }

/-- A recorded persist call: the argument triple of `saveCustomerWebsite`. -/
def SaveCall := String × String × String
deriving instance DecidableEq, Repr for SaveCall

/-- Consume one interactive prompt answer. -/
def askAnswer (ans : List String) : String × List String :=
  (ans.headD "", ans.tail)

/-- The overwrite-prompt branch that enters a manual URL and saves it
(lines 559-564): resolves with `{ success: saved, skipped: false }`; a
rejected persist call is caught by the outer handler. -/
def saveManualOverwrite (fw : Bool) (customer : Customer) (manual : String)
    (env : ProcEnv) : ProcResult × List SaveCall :=
  let normalized := normalizeDomain fw manual
  let call : SaveCall := (customer.id, customer.code, normalized)
  match env.saveResult with
  | .error m => (caughtResult m, [call])
  | .ok b =>
    ({ success := b, skipped := false, updated := false, url := none, error := none },
     [call])

/-- Lines 611-633: final blank check, normalization, the confirmation prompt
and the persist call. -/
def finishSave (fw : Bool) (opts : ProcOpts) (customer : Customer)
    (websiteUrl : String) (env : ProcEnv) (ans : List String) :
    ProcResult × List SaveCall :=
  if websiteUrl = "" ∨ jsTrim websiteUrl = "" then (skippedResult, [])
  else
    let normalizedUrl := normalizeDomain fw websiteUrl
    let call : SaveCall := (customer.id, customer.code, normalizedUrl)
    let doSave : ProcResult × List SaveCall :=
      match env.saveResult with
      | .error m => (caughtResult m, [call])
      | .ok true =>
        ({ success := true, skipped := false, updated := true,
           url := some normalizedUrl, error := none }, [call])
      | .ok false =>
        ({ success := false, skipped := false, updated := false,
           url := none, error := none }, [call])
    if !opts.nonInteractive && !opts.autoConfirm then
      let a := askAnswer ans
      if jsToLower (jsTrim a.1) ≠ "y" then (skippedResult, [])
      else doSave
    else doSave

/-- Lines 568-609: pick the target website from the pinned input row or the
resolution pipeline, applying the unattended confidence gate. -/
def chooseWebsite (fw : Bool) (opts : ProcOpts) (customer : Customer)
    (env : ProcEnv) : List String → ProcResult × List SaveCall :=
  fun ans0 =>
    if truthyOpt opts.website then
      finishSave fw opts customer (opts.website.getD "") env ans0
    else
      match env.findResult with
      | some result =>
        if opts.nonInteractive then
          if result.confidence = "high" ∨ opts.force then
            finishSave fw opts customer result.url env ans0
          else (skippedResult, [])
        else
          let a := askAnswer ans0
          let choice := jsToLower (jsTrim a.1)
          if choice = "y" then finishSave fw opts customer result.url env a.2
          else if choice = "e" then
            let m := askAnswer a.2
            if m.1 ≠ "" ∧ jsTrim m.1 ≠ "" then
              finishSave fw opts customer m.1 env m.2
            else (skippedResult, [])
          else (skippedResult, [])
      | none =>
        if opts.nonInteractive then (skippedResult, [])
        else
          let m := askAnswer ans0
          if m.1 = "" ∨ jsTrim m.1 = "" then (skippedResult, [])
          else finishSave fw opts customer m.1 env m.2

def processCustomer (fw : Bool) (customerCode : String) (opts : ProcOpts)
    (env : ProcEnv) : ProcResult × List SaveCall :=
  match env.fetch with
  | .error msg => (caughtResult msg, [])
  | .ok customer =>
    let _ := customerCode
    let choose := chooseWebsite fw opts customer env
    if customer.currentWebsite ≠ "" ∧ jsTrim customer.currentWebsite ≠ "" ∧ opts.force = false then
      if opts.nonInteractive then (skippedResult, [])
      else
        let a := askAnswer env.answers
        let resp := jsToLower (jsTrim a.1)
        if resp = "s" then (skippedResult, [])
        else if resp = "e" then
          let m := askAnswer a.2
          if m.1 = "" ∨ jsTrim m.1 = "" then (skippedResult, [])
          else saveManualOverwrite fw customer m.1 env
        else choose a.2
    else choose env.answers

/-! ## `processCustomerList` and the results CSV (enhanced script,
lines 640-709) -/

/-- One input row: a bare code or a `(code, website)` pair. -/
structure Row where
  code : String
  website : Option String
deriving DecidableEq, Repr

structure ListOpts where
  nonInteractive : Bool
  force : Bool
  autoConfirm : Bool
deriving DecidableEq, Repr

/-- The `results` tally object; `total` is fixed to the input length when the
run starts. -/
structure Tally where
  total : Nat
  updated : Nat
  skipped : Nat
  failed : Nat
deriving DecidableEq, Repr

/-- One detailed outcome row pushed by the loop. -/
structure DetailedRow where
  code : String
  status : String
  url : Option String
  error : Option String
deriving DecidableEq, Repr

/-- The loop body of `processCustomerList`: exactly one counter bump per
record; a detailed row only for updated-with-url and failed records. -/
def tallyStep (row : Row) (res : ProcResult) (acc : Tally × List DetailedRow) :
    Tally × List DetailedRow :=
  let t := acc.1
  if res.skipped then
    ({ t with skipped := t.skipped + 1 }, acc.2)
  else if res.success then
    ({ t with updated := t.updated + 1 },
     match res.url with
     | some u =>
       if u ≠ "" then
         acc.2 ++ [{ code := row.code, status := "updated", url := some u, error := none }]
       else acc.2
     | none => acc.2)
  else
    ({ t with failed := t.failed + 1 },
     acc.2 ++
       [{ code := row.code, status := "failed", url := none,
          error := some (res.error.getD "unknown") }])

def processListGo (fw : Bool) (opts : ListOpts) :
    List (Row × ProcEnv) → Tally × List DetailedRow → Tally × List DetailedRow
  | [], acc => acc
  | (row, env) :: rest, acc =>
    let res := processCustomer fw row.code
      { nonInteractive := opts.nonInteractive, website := row.website,
        force := opts.force, autoConfirm := opts.autoConfirm } env
    processListGo fw opts rest (tallyStep row res.1 acc)

/-- `processCustomerList` of the enhanced script: iterates every row (there
is no early exit) and returns the tally and the detailed rows. -/
def processCustomerList (fw : Bool) (items : List (Row × ProcEnv))
    (opts : ListOpts) : Tally × List DetailedRow :=
  processListGo fw opts items
    ({ total := items.length, updated := 0, skipped := 0, failed := 0 }, [])

/-- `writeResultsCsv`: the header line followed by one line per detailed
row (the file is these lines joined by a newline). -/
def writeResultsCsv (detailed : List DetailedRow) : List String :=
  "code,status,url,error" ::
    detailed.map (fun item =>
      item.code ++ "," ++ item.status ++ "," ++ (item.url.getD "") ++ "," ++
        (item.error.getD ""))

/-! ## TS variant (`src/websites.ts`): `processCustomer` (lines 134-183) and
`processCustomerList` (lines 185-214)

The TS `normalizeDomain` (lines 107-120) is the enhanced normalizer with the
`www.` prefix applied unconditionally. -/

def tsNormalizeDomain (url : String) : String := normalizeDomain true url

structure TsOpts where
  nonInteractive : Bool
  website : Option String
  force : Bool
deriving DecidableEq, Repr

/-- TS `processCustomer`.  The final persist uses the caller-side fallbacks
`tsPersistId`/`tsPersistCode`; prompt answers are lowercased but (unlike the
enhanced script) not trimmed. -/
def tsProcessCustomer (customerCode : String) (opts : TsOpts) (env : ProcEnv) :
    ProcResult × List SaveCall :=
  match env.fetch with
  | .error msg => (caughtResult msg, [])
  | .ok customer =>
    let afterGate : List String → ProcResult × List SaveCall := fun ans0 =>
      let withUrl : String → List String → ProcResult × List SaveCall :=
        fun websiteUrl ans1 =>
          if websiteUrl = "" ∨ jsTrim websiteUrl = "" then (skippedResult, [])
          else
            let normalizedUrl := tsNormalizeDomain websiteUrl
            let call : SaveCall :=
              (tsPersistId customer.id, tsPersistCode customer.code customerCode,
               normalizedUrl)
            let doSave : ProcResult × List SaveCall :=
              match env.saveResult with
              | .error m => (caughtResult m, [call])
              | .ok b =>
                ({ success := b, skipped := false, updated := false,
                   url := none, error := none }, [call])
            if !opts.nonInteractive then
              let a := askAnswer ans1
              if jsToLower a.1 ≠ "y" then (skippedResult, [])
              else doSave
            else doSave
      if truthyOpt opts.website then
        withUrl (opts.website.getD "") ans0
      else
        if opts.nonInteractive then (skippedResult, [])
        else
          let m := askAnswer ans0
          withUrl m.1 m.2
    if customer.currentWebsite ≠ "" ∧ jsTrim customer.currentWebsite ≠ "" ∧ opts.force = false then
      if opts.nonInteractive then (skippedResult, [])
      else
        let a := askAnswer env.answers
        if jsToLower a.1 ≠ "y" then (skippedResult, [])
        else afterGate a.2
    else afterGate env.answers

/-- TS list options (no auto-confirm flag). -/
structure TsListOpts where
  nonInteractive : Bool
  force : Bool
deriving DecidableEq, Repr

/-- The per-record counter bump of the TS loop. -/
def tsTallyStep (res : ProcResult) (t : Tally) : Tally :=
  if res.skipped then { t with skipped := t.skipped + 1 }
  else if res.success then { t with updated := t.updated + 1 }
  else { t with failed := t.failed + 1 }

/-- TS loop: after each record except the last, an interactive run asks
whether to continue and BREAKS out of the loop on anything but `y`
(`contAnswers` is the stream of answers to that prompt).  `total` was fixed
to the full input length before the loop. -/
def tsProcessListGo (opts : TsListOpts) :
    List (Row × ProcEnv) → List String → Tally → Tally
  | [], _, t => t
  | (row, env) :: rest, cont, t =>
    let res := (tsProcessCustomer row.code
      { nonInteractive := opts.nonInteractive, website := row.website,
        force := opts.force } env).1
    let t1 := tsTallyStep res t
    if !opts.nonInteractive && !rest.isEmpty then
      let a := askAnswer cont
      if jsToLower a.1 ≠ "y" then t1
      else tsProcessListGo opts rest a.2 t1
    else tsProcessListGo opts rest cont t1

def tsProcessCustomerList (items : List (Row × ProcEnv)) (opts : TsListOpts)
    (contAnswers : List String) : Tally :=
  tsProcessListGo opts items contAnswers
    { total := items.length, updated := 0, skipped := 0, failed := 0 }

/-! ## Concrete records used by the claim scenarios -/

/-- Scenario B record: code `ABC123` whose fetched record carries a non-empty
current website. -/
def scenarioBCustomer : Customer :=
  { id := "9", code := "ABC123", name := "Acme", city := "", state := "",
    phone := "", currentWebsite := "www.oldsite.com" }

def scenarioBItems : List (Row × ProcEnv) :=
  [({ code := "ABC123", website := none },
    { fetch := .ok scenarioBCustomer, findResult := none,
      saveResult := .ok true, answers := [] })]

/-- Scenario B batch run: unattended, force-overwrite disabled. -/
def scenarioBRun : Tally × List DetailedRow :=
  processCustomerList true scenarioBItems
    { nonInteractive := true, force := false, autoConfirm := false }

/-- Confidence-gate scenario customer: fetched record with a blank current
website. -/
def gateWitnessCustomer : Customer :=
  { id := "42", code := "WE01", name := "WeBowers", city := "Glen Burnie",
    state := "MD", phone := "", currentWebsite := "" }

/-- The per-result score as worded by the specification: base 0, +10 when the
link contains `.com`, +5 when the lowercased title contains `official` or
`home`, +5 when the lowercased snippet contains `official website`, −20 when
the link matches the fixed blocklist. -/
def specScore (it : SearchItem) : Int :=
  (if jsIncludes it.link ".com" then 10 else 0) +
    (if jsIncludes (jsToLower it.title) "official" ||
        jsIncludes (jsToLower it.title) "home" then 5 else 0) +
    (if jsIncludes (jsToLower it.snippet) "official website" then 5 else 0) -
    (if badDomains.any (fun bad => jsIncludes it.link bad) then 20 else 0)

/-! ## Basic lemmas -/

theorem dedupKeepFirst_cons (seen : List (List Char)) (x : List Char)
    (xs : List (List Char)) (hx : x ∉ seen) :
    dedupKeepFirst seen (x :: xs) = x :: dedupKeepFirst (x :: seen) xs := by
  simp [dedupKeepFirst, hx]

theorem string_mk_eq_empty_iff (l : List Char) : String.mk l = "" ↔ l = [] := by
  constructor
  · intro h
    have h2 := congrArg String.data h
    simpa using h2
  · intro h
    rw [h]

/-! ## Claim C4 -/

/-- C4 counterexample: the generated candidate set for
`("4Print Wraps, Inc.", "Glenburnie")` does NOT contain
`www.4-print-wraps.com` — hyphenation only replaces whitespace, so the
hyphenated form is `www.4print-wraps.com`. -/
theorem generateDomainPatterns_4print_missing_hyphen :
    "www.4-print-wraps.com" ∉
      generateDomainPatterns true "4Print Wraps, Inc." (some "Glenburnie") := by
  decide

/-- C4 (amended): `generateDomainPatterns "4Print Wraps, Inc." "Glenburnie"`
deterministically equals the ordered, deduplicated list
`[www.4printwraps.com, www.4print-wraps.com, www.printwraps.com,
www.glenburnie4printwraps.com, www.4printwrapsglenburnie.com]`
(under the default `www.` policy). -/
theorem generateDomainPatterns_4print :
    generateDomainPatterns true "4Print Wraps, Inc." (some "Glenburnie") =
      ["www.4printwraps.com", "www.4print-wraps.com", "www.printwraps.com",
       "www.glenburnie4printwraps.com", "www.4printwrapsglenburnie.com"] := by
  decide

/-! ## Claim C10 -/

/-- C10: `generateDomainPatterns` never returns an empty list, and a company
name that cleans to the empty string yields, with no city and the default
`www.` policy, exactly the degenerate candidate list `["www..com"]`. -/
theorem generateDomainPatterns_nonempty (fw : Bool) (name : String)
    (city : Option String) :
    generateDomainPatterns fw name city ≠ [] ∧
      (cleanCompanyName name = "" →
        generateDomainPatterns true name none = ["www..com"]) := by
  constructor
  · show (generateDomainPatternsL fw name.data (city.map String.data)).map String.mk ≠ []
    simp only [ne_eq, List.map_eq_nil_iff]
    rcases city with _ | c
    · simp [generateDomainPatternsL, dedupKeepFirst]
    · simp only [generateDomainPatternsL, Option.map]
      split <;> simp [dedupKeepFirst]
  · intro h
    have h0 : cleanCompanyNameL name.data = [] :=
      (string_mk_eq_empty_iff (cleanCompanyNameL name.data)).mp h
    show (generateDomainPatternsL true name.data none).map String.mk = _
    simp only [generateDomainPatternsL, h0]
    rfl

/-- C10 witness: the name `"Inc."` cleans to the empty string and yields the
single degenerate candidate. -/
theorem generateDomainPatterns_nonempty_witness :
    generateDomainPatterns true "Inc." none ≠ [] ∧
      generateDomainPatterns true "Inc." none = ["www..com"] :=
  ⟨(generateDomainPatterns_nonempty true "Inc." none).1,
   (generateDomainPatterns_nonempty true "Inc." none).2 (by decide)⟩

/-! ## Claim C6 -/

/-- C6 counterexample: in the enhanced script, a persist call with a blank
identifier and a blank code sends the EMPTY string as the code value — not
the code used for the original lookup (here `"ABC123"`). -/
theorem persist_blank_code_not_lookup :
    (saveCustomerWebsiteBody "" "" "www.example.com").codeValue = "" ∧
      (saveCustomerWebsiteBody "" "" "www.example.com").codeValue ≠ "ABC123" := by
  decide

/-- C6 (amended): with blank identifier and blank code the enhanced persist
sends identifier `"0"` and an EMPTY code value; the fallback of a blank code
to the originally looked-up code exists only in the TS variant, where the
caller substitutes `tsPersistId`/`tsPersistCode` before persisting. -/
theorem persist_blank_field_fallbacks (url lookupCode : String) :
    (saveCustomerWebsiteBody "" "" url).idValue = "0" ∧
      (saveCustomerWebsiteBody "" "" url).codeValue = "" ∧
      tsPersistId "" = "0" ∧
      tsPersistCode "" lookupCode = lookupCode := by
  refine ⟨rfl, rfl, rfl, ?_⟩
  simp [tsPersistCode]

/-! ## Claim C8 -/

/-- C8 counterexample: the batch output CSV for scenario B consists of the
header line only — it contains NO row for `ABC123`, in particular not the
claimed `ABC123,skipped,,website already exists` row. -/
theorem scenarioB_csv_missing_row :
    writeResultsCsv scenarioBRun.2 = ["code,status,url,error"] ∧
      "ABC123,skipped,,website already exists" ∉ writeResultsCsv scenarioBRun.2 := by
  decide

/-- C8 (amended): in scenario B the record outcome is skipped (the skip
counter is incremented), but skipped records produce no detailed row, so the
output CSV carries no row for `ABC123` at all. -/
theorem scenarioB_skipped_row_omitted :
    scenarioBRun.1 = { total := 1, updated := 0, skipped := 1, failed := 0 } ∧
      scenarioBRun.2 = [] := by
  decide

/-! ## Claim C7 -/

theorem tallyStep_sum (row : Row) (res : ProcResult) (acc : Tally × List DetailedRow) :
    (tallyStep row res acc).1.updated + (tallyStep row res acc).1.skipped +
        (tallyStep row res acc).1.failed =
      acc.1.updated + acc.1.skipped + acc.1.failed + 1 ∧
    (tallyStep row res acc).1.total = acc.1.total := by
  unfold tallyStep
  split
  · simp
    omega
  · split
    · simp
      omega
    · simp
      omega

theorem processListGo_sum (fw : Bool) (opts : ListOpts)
    (items : List (Row × ProcEnv)) (acc : Tally × List DetailedRow) :
    (processListGo fw opts items acc).1.updated +
        (processListGo fw opts items acc).1.skipped +
        (processListGo fw opts items acc).1.failed =
      acc.1.updated + acc.1.skipped + acc.1.failed + items.length ∧
    (processListGo fw opts items acc).1.total = acc.1.total := by
  induction items generalizing acc with
  | nil => simp [processListGo]
  | cons item rest ih =>
    obtain ⟨row, env⟩ := item
    simp only [processListGo, List.length_cons]
    have hstep := tallyStep_sum row
      (processCustomer fw row.code
        { nonInteractive := opts.nonInteractive, website := row.website,
          force := opts.force, autoConfirm := opts.autoConfirm } env).1 acc
    have hrec := ih (tallyStep row
      (processCustomer fw row.code
        { nonInteractive := opts.nonInteractive, website := row.website,
          force := opts.force, autoConfirm := opts.autoConfirm } env).1 acc)
    omega

theorem tsTallyStep_sum (res : ProcResult) (t : Tally) :
    (tsTallyStep res t).updated + (tsTallyStep res t).skipped +
        (tsTallyStep res t).failed =
      t.updated + t.skipped + t.failed + 1 ∧
    (tsTallyStep res t).total = t.total := by
  unfold tsTallyStep
  split
  · simp
    omega
  · split
    · simp
      omega
    · simp
      omega

theorem tsProcessListGo_sum (opts : TsListOpts) (hni : opts.nonInteractive = true)
    (items : List (Row × ProcEnv)) (cont : List String) (t : Tally) :
    (tsProcessListGo opts items cont t).updated +
        (tsProcessListGo opts items cont t).skipped +
        (tsProcessListGo opts items cont t).failed =
      t.updated + t.skipped + t.failed + items.length ∧
    (tsProcessListGo opts items cont t).total = t.total := by
  induction items generalizing cont t with
  | nil => simp [tsProcessListGo]
  | cons item rest ih =>
    obtain ⟨row, env⟩ := item
    simp only [tsProcessListGo, hni, Bool.not_true, Bool.false_and,
      Bool.false_eq_true, if_false, List.length_cons]
    have hstep := tsTallyStep_sum (tsProcessCustomer row.code
      { nonInteractive := opts.nonInteractive, website := row.website,
        force := opts.force } env).1 t
    have hrec := ih cont (tsTallyStep (tsProcessCustomer row.code
      { nonInteractive := opts.nonInteractive, website := row.website,
        force := opts.force } env).1 t)
    rw [hni] at hstep hrec
    omega

/-- C7 (amended): in the enhanced script every record bumps exactly one
counter and `updated + skipped + failed = total = input length` holds at run
end; in the TS variant this invariant is guaranteed for non-interactive runs
(no early exit), while the interactive continue-prompt can end the loop
early and leave `updated + skipped + failed` short of `total`. -/
theorem runTally_invariant (fw : Bool) (items tsItems : List (Row × ProcEnv))
    (opts : ListOpts) (force : Bool) (cont : List String) :
    ((processCustomerList fw items opts).1.updated +
        (processCustomerList fw items opts).1.skipped +
        (processCustomerList fw items opts).1.failed =
      (processCustomerList fw items opts).1.total ∧
      (processCustomerList fw items opts).1.total = items.length) ∧
    (tsProcessCustomerList tsItems { nonInteractive := true, force := force }
          cont).updated +
        (tsProcessCustomerList tsItems { nonInteractive := true, force := force }
          cont).skipped +
        (tsProcessCustomerList tsItems { nonInteractive := true, force := force }
          cont).failed =
      (tsProcessCustomerList tsItems { nonInteractive := true, force := force }
        cont).total := by
  constructor
  · have h := processListGo_sum fw opts items
      ({ total := items.length, updated := 0, skipped := 0, failed := 0 }, [])
    simp only [] at h
    unfold processCustomerList
    constructor
    · omega
    · exact h.2
  · have h := tsProcessListGo_sum { nonInteractive := true, force := force } rfl
      tsItems cont { total := tsItems.length, updated := 0, skipped := 0, failed := 0 }
    simp only [] at h
    unfold tsProcessCustomerList
    omega

/-- C7 counterexample: a two-record interactive TS run in which the user
skips the first record and declines the continue prompt ends with
`updated + skipped + failed = 1` but `total = 2` — the invariant is violated
after the early exit. -/
theorem tsRunTally_early_exit_breaks_invariant :
    (tsProcessCustomerList
        [({ code := "A", website := none },
          { fetch := .ok scenarioBCustomer, findResult := none,
            saveResult := .ok true, answers := ["n"] }),
         ({ code := "B", website := none },
          { fetch := .ok scenarioBCustomer, findResult := none,
            saveResult := .ok true, answers := ["n"] })]
        { nonInteractive := false, force := false } ["n"]) =
      { total := 2, updated := 0, skipped := 1, failed := 0 } ∧
      ¬((2 : Nat) = 0 + 1 + 0) := by
  decide

/-! ## Claim C1 -/

/-- C1: `findWebsite` invokes exactly the enabled tiers in the fixed order
domain guessing, search, OpenAI, stopping at (and including) the first tier
that returns a result; its value is the first non-null result of the
enabled tiers, and when every enabled tier returns null the run returns
null. -/
theorem findWebsite_tier_order (cfg : TierConfig)
    (guessRes googleRes openaiRes : Option Candidate) :
    (findWebsiteRun cfg guessRes googleRes openaiRes).1 =
        specFirstResult (enabledTiers cfg guessRes googleRes openaiRes) ∧
      (findWebsiteRun cfg guessRes googleRes openaiRes).2 =
        specInvoked (enabledTiers cfg guessRes googleRes openaiRes) ∧
      (findWebsiteRun cfg none none none).1 = none := by
  obtain ⟨d, g, o⟩ := cfg
  cases d <;> cases g <;> cases o <;>
    cases guessRes <;> cases googleRes <;> cases openaiRes <;>
      simp [findWebsiteRun, findWebsiteTier23, findWebsiteTier3,
        enabledTiers, specFirstResult, specInvoked]

/-! ## Claim C9 -/

theorem char_eq_of_toNat {a b : Char} (h : a.toNat = b.toNat) : a = b :=
  Char.ext (UInt32.ext_iff.mpr h)

theorem toNat_asciiToLower (c : Char) :
    (asciiToLower c).toNat =
      if 65 ≤ c.toNat ∧ c.toNat ≤ 90 then c.toNat + 32 else c.toNat := by
  unfold asciiToLower
  split
  · rename_i h
    have hv : (c.toNat + 32).isValidChar := Or.inl (by omega)
    rw [Char.ofNat, dif_pos hv]
    simp [Char.ofNatAux, Char.toNat, UInt32.toNat, BitVec.toNat_ofNatLt]
  · rename_i h
    simp [h]

theorem isUpper_iff_toNat (c : Char) :
    c.isUpper = true ↔ (65 ≤ c.toNat ∧ c.toNat ≤ 90) := by
  simp only [Char.isUpper, Bool.and_eq_true, decide_eq_true_eq]
  exact Iff.rfl

theorem isUpper_asciiToLower (c : Char) : (asciiToLower c).isUpper = false := by
  rw [Bool.eq_false_iff]
  intro hu
  rw [isUpper_iff_toNat, toNat_asciiToLower] at hu
  by_cases h : 65 ≤ c.toNat ∧ c.toNat ≤ 90
  · rw [if_pos h] at hu
    omega
  · rw [if_neg h] at hu
    exact h hu

/-- C9: every persist call of the enhanced script lowercases its website
argument before placing it in the envelope, so the `WebSite` value contains
no uppercase character — while `normalizeDomain` itself preserves case on
its textual fallback path (witnessed by `"A B"`, which normalizes to
`"www.A B"`). -/
theorem saveCustomerWebsite_lowercases (customerId customerCode url : String) :
    (saveCustomerWebsiteBody customerId customerCode url).websiteValue =
        jsToLower url ∧
      (∀ c ∈ (saveCustomerWebsiteBody customerId customerCode url).websiteValue.data,
        c.isUpper = false) ∧
      normalizeDomain true "A B" = "www.A B" := by
  refine ⟨rfl, ?_, by decide⟩
  intro c hc
  have hc2 : c ∈ lowerL url.data := hc
  obtain ⟨d, _, hd⟩ := List.mem_map.mp hc2
  rw [← hd]
  exact isUpper_asciiToLower d

/-! ## Claim C2 -/

/-- C2: in an unattended run that reaches the resolution pipeline (no pinned
website; the existing-website gate passed because the current website is
blank or force is set), a returned candidate is persisted exactly when its
confidence is `high` or the force flag is set — the persist trace is the
single call with the normalized candidate URL — and a non-`high` candidate
without force leaves the record skipped with NO persist call. -/
theorem processCustomer_confidence_gate
    (fw : Bool) (code : String) (cust : Customer) (cand : Candidate)
    (force ac : Bool) (saveRes : Except String Bool) (ans : List String)
    (hReach : jsTrim cust.currentWebsite = "" ∨ force = true)
    (hUrl : jsTrim cand.url ≠ "") :
    ((cand.confidence = "high" ∨ force = true) →
      (processCustomer fw code
        { nonInteractive := true, website := none, force := force, autoConfirm := ac }
        { fetch := .ok cust, findResult := some cand, saveResult := saveRes,
          answers := ans }).2 =
        [(cust.id, cust.code, normalizeDomain fw cand.url)]) ∧
    ((cand.confidence ≠ "high" ∧ force = false) →
      processCustomer fw code
        { nonInteractive := true, website := none, force := force, autoConfirm := ac }
        { fetch := .ok cust, findResult := some cand, saveResult := saveRes,
          answers := ans } = (skippedResult, [])) := by
  have hgate : ¬(cust.currentWebsite ≠ "" ∧ jsTrim cust.currentWebsite ≠ "" ∧
      force = false) := by
    rcases hReach with h | h
    · rintro ⟨_, h2, _⟩
      exact h2 h
    · rintro ⟨_, _, h3⟩
      rw [h] at h3
      cases h3
  have hUrlNe : cand.url ≠ "" := by
    intro h0
    apply hUrl
    rw [h0]
    rfl
  simp only [processCustomer, chooseWebsite, truthyOpt, if_neg hgate]
  simp only [Bool.false_eq_true, if_false, if_true, ite_true, ite_false]
  constructor
  · intro hHigh
    rw [if_pos hHigh]
    simp only [finishSave, if_neg (fun h => Or.elim h hUrlNe hUrl)]
    simp only [Bool.not_true, Bool.false_and, Bool.false_eq_true, if_false,
      ite_false]
    rcases saveRes with m | b
    · rfl
    · cases b <;> rfl
  · rintro ⟨hc, hf⟩
    rw [if_neg]
    rintro (h | h)
    · exact hc h
    · rw [hf] at h
      cases h

/-- C2 witness: a `high` candidate is persisted; a `medium` candidate without
force is skipped with no persist call. -/
theorem processCustomer_confidence_gate_witness :
    (processCustomer true "WE01"
        { nonInteractive := true, website := none, force := false, autoConfirm := false }
        { fetch := .ok gateWitnessCustomer,
          findResult := some { url := "www.webowers.com", confidence := "high",
                               source := "domain_guess", allResults := none },
          saveResult := .ok true, answers := [] }).2 =
      [("42", "WE01", "www.webowers.com")] ∧
    processCustomer true "WE01"
        { nonInteractive := true, website := none, force := false, autoConfirm := false }
        { fetch := .ok gateWitnessCustomer,
          findResult := some { url := "www.found.com", confidence := "medium",
                               source := "google_cse", allResults := none },
          saveResult := .ok true, answers := [] } = (skippedResult, []) := by
  constructor
  · have h := (processCustomer_confidence_gate true "WE01" gateWitnessCustomer
      { url := "www.webowers.com", confidence := "high", source := "domain_guess",
        allResults := none }
      false false (.ok true) [] (Or.inl (by decide)) (by decide)).1 (Or.inl rfl)
    rw [show normalizeDomain true "www.webowers.com" = "www.webowers.com" from
      by decide] at h
    exact h
  · exact (processCustomer_confidence_gate true "WE01" gateWitnessCustomer
      { url := "www.found.com", confidence := "medium", source := "google_cse",
        allResults := none }
      false false (.ok true) [] (Or.inl (by decide)) (by decide)).2 ⟨by decide, rfl⟩

/-! ## Claim C5 -/

theorem scoreItem_eq_specScore (it : SearchItem) : scoreItem it = specScore it := by
  simp only [scoreItem, specScore]
  split_ifs <;> omega

theorem mem_insertDesc (x z : Scored) (l : List Scored) :
    z ∈ insertDesc x l ↔ z = x ∨ z ∈ l := by
  induction l with
  | nil => simp [insertDesc]
  | cons y ys ih =>
    simp only [insertDesc]
    split <;> simp only [List.mem_cons, ih] <;> tauto

theorem pairwise_insertDesc (x : Scored) (l : List Scored)
    (h : l.Pairwise (fun a b => b.score ≤ a.score)) :
    (insertDesc x l).Pairwise (fun a b => b.score ≤ a.score) := by
  induction l with
  | nil => simp [insertDesc]
  | cons y ys ih =>
    rw [List.pairwise_cons] at h
    simp only [insertDesc]
    split
    · rename_i hle
      rw [List.pairwise_cons]
      refine ⟨?_, List.pairwise_cons.mpr h⟩
      intro z hz
      rcases List.mem_cons.mp hz with rfl | hz2
      · exact hle
      · exact le_trans (h.1 z hz2) hle
    · rename_i hgt
      rw [List.pairwise_cons]
      refine ⟨?_, ih h.2⟩
      intro z hz
      rcases (mem_insertDesc x z ys).mp hz with rfl | hz2
      · exact le_of_lt (lt_of_not_ge hgt)
      · exact h.1 z hz2

theorem sortDesc_pairwise (l : List Scored) :
    (sortDesc l).Pairwise (fun a b => b.score ≤ a.score) := by
  induction l with
  | nil => simp [sortDesc]
  | cons x xs ih => exact pairwise_insertDesc x _ ih

theorem filter_insertDesc (x : Scored) (l : List Scored) (s : Int) :
    (insertDesc x l).filter (fun r => r.score == s) =
      if x.score == s then x :: l.filter (fun r => r.score == s)
      else l.filter (fun r => r.score == s) := by
  induction l with
  | nil =>
    simp [insertDesc, List.filter_cons]
  | cons y ys ih =>
    simp only [insertDesc]
    split
    · rw [List.filter_cons]
    · rename_i hgt
      rw [List.filter_cons, ih]
      by_cases hx : (x.score == s) = true
      · have hy : (y.score == s) = false := by
          simp only [beq_iff_eq] at hx
          simp only [beq_eq_false_iff_ne, ne_eq]
          omega
        simp [hx, hy, List.filter_cons]
      · simp only [Bool.not_eq_true] at hx
        simp [hx, List.filter_cons]

theorem sortDesc_filter (l : List Scored) (s : Int) :
    (sortDesc l).filter (fun r => r.score == s) =
      l.filter (fun r => r.score == s) := by
  induction l with
  | nil => rfl
  | cons x xs ih =>
    simp only [sortDesc]
    rw [filter_insertDesc, ih, List.filter_cons]

/-- C5: the search tier scores each result by the spec formula; ranking is a
stable descending sort (sorted by score, and the sublist at every score
value keeps provider order); a negative top score yields null; otherwise the
result is the top link's normalized hostname, `high` exactly when the top
score is at least 10 (else `medium`), with the full ranked URL list retained
as `allResults`. -/
theorem searchGoogleCSE_scoring (fw : Bool) (items : List SearchItem) :
    (∀ it, scoreItem it = specScore it) ∧
      (sortDesc (items.map mkScored)).Pairwise (fun a b => b.score ≤ a.score) ∧
      (∀ s : Int, (sortDesc (items.map mkScored)).filter (fun r => r.score == s) =
        (items.map mkScored).filter (fun r => r.score == s)) ∧
      (∀ top rest, sortDesc (items.map mkScored) = top :: rest →
        (top.score < 0 → cseResolve fw items = none) ∧
        (0 ≤ top.score → ∀ hst, urlHostname top.url = some hst →
          cseResolve fw items =
            some { url := normalizeDomain fw hst,
                   confidence := if 10 ≤ top.score then "high" else "medium",
                   source := "google_cse",
                   allResults := some ((top :: rest).map Scored.url) })) := by
  refine ⟨scoreItem_eq_specScore, sortDesc_pairwise _,
    fun s => sortDesc_filter _ s, ?_⟩
  intro top rest hranked
  constructor
  · intro hneg
    simp only [cseResolve, hranked, if_pos hneg]
  · intro hpos hst hhost
    simp only [cseResolve, hranked, if_neg (not_lt.mpr hpos), hhost]

/-- C5 witness: on a two-item result list (a Facebook link and the official
site) the ranking puts the official site first with score 20 and the tier
returns it with `high` confidence and both ranked URLs as alternates. -/
theorem searchGoogleCSE_scoring_witness :
    cseResolve true
        [{ link := "https://www.facebook.com/webowers",
           title := "WeBowers - Facebook", snippet := "" },
         { link := "https://www.webowers.com/about",
           title := "WeBowers - Official Home",
           snippet := "The official website of WeBowers" }] =
      some { url := "www.webowers.com", confidence := "high",
             source := "google_cse",
             allResults := some ["https://www.webowers.com/about",
               "https://www.facebook.com/webowers"] } := by
  have h := ((searchGoogleCSE_scoring true
      [{ link := "https://www.facebook.com/webowers",
         title := "WeBowers - Facebook", snippet := "" },
       { link := "https://www.webowers.com/about",
         title := "WeBowers - Official Home",
         snippet := "The official website of WeBowers" }]).2.2.2
    { url := "https://www.webowers.com/about", title := "webowers - official home",
      score := 20 }
    [{ url := "https://www.facebook.com/webowers", title := "webowers - facebook",
       score := -10 }]
    (by decide)).2 (by decide) "www.webowers.com" (by decide)
  exact h.trans (by decide)

/-! ## Claim C3 -/

theorem asciiToLower_idem (c : Char) :
    asciiToLower (asciiToLower c) = asciiToLower c := by
  have h1 := toNat_asciiToLower c
  by_cases h : 65 ≤ c.toNat ∧ c.toNat ≤ 90
  · rw [if_pos h] at h1
    apply char_eq_of_toNat
    rw [toNat_asciiToLower, h1, if_neg (by omega)]
  · rw [if_neg h] at h1
    apply char_eq_of_toNat
    rw [toNat_asciiToLower, h1, if_neg h]

theorem hostCharOk_of_lower_letter (d : Char) (h1 : 97 ≤ d.toNat)
    (h2 : d.toNat ≤ 122) : hostCharOk d = true := by
  simp only [hostCharOk, Bool.and_eq_true, decide_eq_true_eq,
    Bool.not_eq_true', decide_eq_false_iff_not]
  refine ⟨⟨by omega, by omega⟩, ?_⟩
  intro hm
  simp only [List.mem_cons, List.not_mem_nil, or_false] at hm
  rcases hm with rfl | rfl | rfl | rfl | rfl | rfl | rfl | rfl | rfl | rfl |
    rfl | rfl | rfl <;>
    first
      | exact absurd h1 (by decide)
      | exact absurd h2 (by decide)

theorem hostCharOk_asciiToLower {c : Char} (h : hostCharOk c = true) :
    hostCharOk (asciiToLower c) = true := by
  by_cases hu : 65 ≤ c.toNat ∧ c.toNat ≤ 90
  · have ht : (asciiToLower c).toNat = c.toNat + 32 := by
      rw [toNat_asciiToLower, if_pos hu]
    exact hostCharOk_of_lower_letter _ (by omega) (by omega)
  · have he : asciiToLower c = c := by
      apply char_eq_of_toNat
      rw [toNat_asciiToLower, if_neg hu]
    rw [he]
    exact h

theorem hostCharOk_not_ws {c : Char} (h : hostCharOk c = true) :
    isWsChar c = false := by
  rw [Bool.eq_false_iff]
  intro hw
  simp only [isWsChar, decide_eq_true_eq] at hw
  rcases hw with rfl | rfl | rfl | rfl | rfl | rfl <;>
    exact absurd h (by decide)

theorem hostCharOk_ne {c : Char} (h : hostCharOk c = true) :
    c ≠ '/' ∧ c ≠ '\\' ∧ c ≠ '?' ∧ c ≠ '#' ∧ c ≠ ':' ∧ c ≠ '@' := by
  refine ⟨?_, ?_, ?_, ?_, ?_, ?_⟩ <;>
    · rintro rfl
      exact absurd h (by decide)

theorem takeWhile_all {p : Char → Bool} (l : List Char)
    (h : ∀ c ∈ l, p c = true) : l.takeWhile p = l := by
  induction l with
  | nil => rfl
  | cons c t ih =>
    rw [List.takeWhile_cons, h c (List.mem_cons_self c t)]
    simp only [if_true]
    rw [ih (fun d hd => h d (List.mem_cons_of_mem c hd))]

theorem dropWhile_all {p : Char → Bool} (l : List Char)
    (h : ∀ c ∈ l, p c = true) : l.dropWhile p = [] := by
  induction l with
  | nil => rfl
  | cons c t ih =>
    rw [List.dropWhile_cons, h c (List.mem_cons_self c t)]
    simp only [if_true]
    exact ih (fun d hd => h d (List.mem_cons_of_mem c hd))

theorem dropWhile_not {p : Char → Bool} (l : List Char)
    (h : ∀ c ∈ l, p c = false) : l.dropWhile p = l := by
  cases l with
  | nil => rfl
  | cons c t =>
    rw [List.dropWhile_cons, h c (List.mem_cons_self c t)]
    simp

theorem jsTrimL_eq_self (l : List Char) (h : ∀ c ∈ l, isWsChar c = false) :
    jsTrimL l = l := by
  unfold jsTrimL
  rw [dropWhile_not l h,
    dropWhile_not l.reverse (fun c hc => h c (List.mem_reverse.mp hc)),
    List.reverse_reverse]

theorem startsWithL_ex {a p : List Char} :
    startsWithL a p = true ↔ ∃ t, a = p ++ t := by
  induction p generalizing a with
  | nil =>
    simp only [startsWithL, List.nil_append]
    exact ⟨fun _ => ⟨a, rfl⟩, fun _ => trivial⟩
  | cons q qs ih =>
    cases a with
    | nil =>
      simp only [startsWithL]
      constructor
      · intro hfalse
        cases hfalse
      · rintro ⟨t, ht⟩
        cases ht
    | cons c cs =>
      simp only [startsWithL, Bool.and_eq_true, decide_eq_true_eq, ih,
        List.cons_append, List.cons.injEq]
      constructor
      · rintro ⟨rfl, t, rfl⟩
        exact ⟨t, rfl, rfl⟩
      · rintro ⟨t, rfl, rfl⟩
        exact ⟨rfl, t, rfl⟩

theorem startsWithL_append (p t : List Char) : startsWithL (p ++ t) p = true :=
  startsWithL_ex.mpr ⟨t, rfl⟩

theorem splitSchemeGo_none (acc l : List Char) (h : ∀ c ∈ l, c ≠ ':') :
    splitSchemeGo acc l = none := by
  induction l generalizing acc with
  | nil => rfl
  | cons c t ih =>
    simp only [splitSchemeGo]
    rw [if_neg (h c (List.mem_cons_self c t))]
    split
    · exact ih _ (fun d hd => h d (List.mem_cons_of_mem c hd))
    · rfl

theorem splitScheme_none (l : List Char) (h : ∀ c ∈ l, c ≠ ':') :
    splitScheme l = none := by
  cases l with
  | nil => rfl
  | cons c t =>
    simp only [splitScheme]
    split
    · exact splitSchemeGo_none _ _ (fun d hd => h d (List.mem_cons_of_mem c hd))
    · rfl

/-- A host produced by the model parser reparses, after `https://` prefixing,
to itself. -/
theorem urlHostnameL_reparse (h : List Char) (hne : h ≠ [])
    (hok : h.all hostCharOk = true) (hlo : lowerL h = h) :
    urlHostnameL ("https://".data ++ h) = some h := by
  have hmem : ∀ c ∈ h, hostCharOk c = true := List.all_eq_true.mp hok
  have hsch : splitScheme ("https://".data ++ h) =
      some ("https".data, '/' :: '/' :: h) := rfl
  have hds : ('/' :: '/' :: h).dropWhile (fun c => c = '/' || c = '\\') = h := by
    rw [List.dropWhile_cons, if_pos (by decide), List.dropWhile_cons,
      if_pos (by decide)]
    refine dropWhile_not h (fun c hc => ?_)
    obtain ⟨h1, h2, _⟩ := hostCharOk_ne (hmem c hc)
    simp [h1, h2]
  have hts : h.takeWhile (fun c => !authTerm c) = h := by
    refine takeWhile_all h (fun c hc => ?_)
    obtain ⟨h1, h2, h3, h4, _⟩ := hostCharOk_ne (hmem c hc)
    simp [authTerm, h1, h2, h3, h4]
  have hal : afterLastAt h = h := by
    unfold afterLastAt
    rw [takeWhile_all h.reverse (fun c hc => ?_), List.reverse_reverse]
    obtain ⟨_, _, _, _, _, h6⟩ := hostCharOk_ne (hmem c (List.mem_reverse.mp hc))
    simp [h6]
  have hsp : splitHostPort h = some h := by
    unfold splitHostPort
    have hcolon : ∀ c ∈ h, (fun c => decide (c ≠ ':')) c = true := by
      intro c hc
      obtain ⟨_, _, _, _, h5, _⟩ := hostCharOk_ne (hmem c hc)
      simp [h5]
    simp only [takeWhile_all h hcolon, dropWhile_all h hcolon]
  have hv : validateHost h = some h := by
    unfold validateHost
    rw [if_pos ⟨hne, hok⟩, hlo]
  simp only [urlHostnameL, hsch, if_pos (Or.inr (by decide :
    lowerL "https".data = "https".data)), hds, hts, hal, hsp, hv]

/-- Hosts in the image of the model parser are non-empty, consist of valid
host characters, and are already lowercase. -/
theorem urlHostnameL_good (s h : List Char) (hp : urlHostnameL s = some h) :
    h ≠ [] ∧ h.all hostCharOk = true ∧ lowerL h = h := by
  unfold urlHostnameL at hp
  split at hp
  · cases hp
  · split at hp
    · split at hp
      · cases hp
      · rename_i host hsp
        unfold validateHost at hp
        split at hp
        · rename_i hcond
          injection hp with hp2
          subst hp2
          refine ⟨?_, ?_, ?_⟩
          · simp only [ne_eq, lowerL, List.map_eq_nil_iff]
            exact hcond.1
          · rw [List.all_eq_true]
            intro c hc
            obtain ⟨d, hd, rfl⟩ := List.mem_map.mp hc
            exact hostCharOk_asciiToLower (List.all_eq_true.mp hcond.2 d hd)
          · simp only [lowerL, List.map_map]
            refine List.map_congr_left (fun d _ => ?_)
            exact asciiToLower_idem d
        · cases hp
    · cases hp

/-- A value produced by the hostname branch of `normalizeDomainL` is a fixed
point of `normalizeDomainL`. -/
theorem normalizeDomainL_fixpoint (fw : Bool) (h : List Char) (hne : h ≠ [])
    (hok : h.all hostCharOk = true) (hlo : lowerL h = h) :
    normalizeDomainL fw
        (if fw && !startsWithL h "www.".data then "www.".data ++ h else h) =
      if fw && !startsWithL h "www.".data then "www.".data ++ h else h := by
  have hmem := List.all_eq_true.mp hok
  have hnotws : ∀ c ∈ h, isWsChar c = false :=
    fun c hc => hostCharOk_not_ws (hmem c hc)
  by_cases hcnd : (fw && !startsWithL h "www.".data) = true
  · simp only [if_pos hcnd]
    have hneY : "www.".data ++ h ≠ [] := by simp
    have hokY : ("www.".data ++ h).all hostCharOk = true := by
      rw [List.all_append, hok]
      decide
    have hloY : lowerL ("www.".data ++ h) = "www.".data ++ h := by
      unfold lowerL
      rw [List.map_append, show List.map asciiToLower "www.".data = "www.".data
        from by decide, show List.map asciiToLower h = h from hlo]
    have htr : jsTrimL ("www.".data ++ h) = "www.".data ++ h := by
      refine jsTrimL_eq_self _ (fun c hc => ?_)
      rcases List.mem_append.mp hc with hc1 | hc2
      · exact (by decide : ∀ c ∈ "www.".data, isWsChar c = false) c hc1
      · exact hnotws c hc2
    have hpre : prefixedL ("www.".data ++ h) =
        "https://".data ++ ("www.".data ++ h) := by
      unfold prefixedL
      rw [if_neg]
      intro hst
      rw [show startsWithL ("www.".data ++ h) "http".data = false from rfl] at hst
      cases hst
    unfold normalizeDomainL
    rw [if_neg hneY, htr]
    simp only [hpre, urlHostnameL_reparse _ hneY hokY hloY]
    rw [startsWithL_append]
    simp
  · simp only [if_neg hcnd]
    have hcnd2 : (fw && !startsWithL h "www.".data) = false :=
      Bool.eq_false_iff.mpr hcnd
    by_cases hhttp : startsWithL h "http".data = true
    · obtain ⟨t, rfl⟩ := startsWithL_ex.mp hhttp
      have hwww : startsWithL ("http".data ++ t) "www.".data = false := rfl
      have hfw : fw = false := by
        rcases Bool.and_eq_false_iff.mp hcnd2 with hf | hs
        · exact hf
        · rw [hwww] at hs
          exact absurd hs (by decide)
      have hcolon : (':' : Char) ∉ "http".data ++ t := by
        intro hcm
        exact absurd (hmem _ hcm) (by decide)
      unfold normalizeDomainL
      rw [if_neg hne, jsTrimL_eq_self _ hnotws]
      have hpre : prefixedL ("http".data ++ t) = "http".data ++ t := by
        unfold prefixedL
        rw [if_pos hhttp]
      have hns : urlHostnameL ("http".data ++ t) = none := by
        unfold urlHostnameL
        rw [splitScheme_none _
          (fun c hc => (hostCharOk_ne (hmem c hc)).2.2.2.2.1)]
      simp only [hpre, hns]
      have hci1 : startsWithCI ("http".data ++ t) "https://".data = false := by
        rw [Bool.eq_false_iff]
        intro hst
        unfold startsWithCI at hst
        rw [hlo, show lowerL "https://".data = "https://".data from by decide]
          at hst
        obtain ⟨t2, heq⟩ := startsWithL_ex.mp hst
        apply hcolon
        rw [heq]
        exact List.mem_append_left _ (by decide)
      have hci2 : startsWithCI ("http".data ++ t) "http://".data = false := by
        rw [Bool.eq_false_iff]
        intro hst
        unfold startsWithCI at hst
        rw [hlo, show lowerL "http://".data = "http://".data from by decide]
          at hst
        obtain ⟨t2, heq⟩ := startsWithL_ex.mp hst
        apply hcolon
        rw [heq]
        exact List.mem_append_left _ (by decide)
      have hciw : startsWithCI ("http".data ++ t) "www.".data = false := by
        unfold startsWithCI
        rw [hlo, show lowerL "www.".data = "www.".data from by decide]
        exact hwww
      have hstrip : stripUrlPrefixL ("http".data ++ t) = "http".data ++ t := by
        simp only [stripUrlPrefixL, hci1, hci2, hciw, Bool.false_eq_true,
          if_false]
      rw [hstrip]
      have htw : ("http".data ++ t).takeWhile (fun c => decide (c ≠ '/')) =
          "http".data ++ t :=
        takeWhile_all _ (fun c hc => by
          simp [(hostCharOk_ne (hmem c hc)).1])
      rw [htw, hfw]
      simp [hciw]
    · have hh : startsWithL h "http".data = false := Bool.eq_false_iff.mpr hhttp
      unfold normalizeDomainL
      rw [if_neg hne, jsTrimL_eq_self _ hnotws]
      have hpre : prefixedL h = "https://".data ++ h := by
        unfold prefixedL
        rw [hh]
        simp
      simp only [hpre, urlHostnameL_reparse _ hne hok hlo]
      rw [if_neg hcnd]

/-- C3 counterexample: normalization is NOT idempotent.  For `"a /b"` the
URL parse fails (space in the host), the textual fallback truncates at the
`/` leaving the trailing space, and the result `"www.a "` normalizes again
(trim, then a successful parse) to the different value `"www.a"`. -/
theorem normalizeDomain_not_idempotent :
    normalizeDomain true (normalizeDomain true "a /b") ≠
        normalizeDomain true "a /b" ∧
      normalizeDomain true "a /b" = "www.a " ∧
      normalizeDomain true (normalizeDomain true "a /b") = "www.a" ∧
      normalizeDomain false (normalizeDomain false "a /b") ≠
        normalizeDomain false "a /b" := by
  decide

/-- C3 (amended): `normalizeDomain` is idempotent on every non-empty input
whose (scheme-prefixed, trimmed) form the URL parser accepts — the URL-parse
path — under either setting of the `www.` policy.  On the textual-strip
fallback path idempotence can fail (see the counterexample, where the
truncated remainder keeps a trailing space). -/
theorem normalizeDomain_idem_parse (fw : Bool) (x : String) (h : List Char)
    (hx : x ≠ "") (hp : urlHostnameL (prefixedL (jsTrimL x.data)) = some h) :
    normalizeDomain fw (normalizeDomain fw x) = normalizeDomain fw x := by
  obtain ⟨hne, hok, hlo⟩ := urlHostnameL_good _ _ hp
  have hxd : x.data ≠ [] := by
    intro h0
    apply hx
    have h1 : String.mk x.data = x := rfl
    rw [← h1, h0]
  have hy : normalizeDomainL fw x.data =
      if fw && !startsWithL h "www.".data then "www.".data ++ h else h := by
    unfold normalizeDomainL
    rw [if_neg hxd]
    simp only [hp]
  show String.mk (normalizeDomainL fw
      (String.mk (normalizeDomainL fw x.data)).data) =
    String.mk (normalizeDomainL fw x.data)
  rw [hy]
  show String.mk (normalizeDomainL fw
      (if fw && !startsWithL h "www.".data then "www.".data ++ h else h)) =
    String.mk (if fw && !startsWithL h "www.".data then "www.".data ++ h else h)
  rw [normalizeDomainL_fixpoint fw h hne hok hlo]

/-- C3 witness: `"Example.COM/path"` takes the URL-parse path (hostname
`example.com`) and normalization is idempotent on it. -/
theorem normalizeDomain_idem_parse_witness :
    "Example.COM/path" ≠ "" ∧
      normalizeDomain true (normalizeDomain true "Example.COM/path") =
        normalizeDomain true "Example.COM/path" :=
  ⟨by decide,
   normalizeDomain_idem_parse true "Example.COM/path" "example.com".data
     (by decide) (by decide)⟩
